import Mathlib

/-!
# Chat relay server (`Client/client.go`): registries, sessions and broadcast

A shallow embedding of the server half of `Client/client.go`:

* the two global Go maps `clients` and `rooms` (`GoMap`),
* the global `mutex` as an explicit flag and every channel send, socket write,
  close and log line as an `Event` appended to a trace (`World`),
* the functions `joinRoom`, `leaveRoom`, `handleCommand`, `handleConnection`
  and `broadcastMessages` as programs in the monad `M`, whose outcome is either
  `done` (the function returned) or `blocked` (the running task waits forever on
  a `mutex.Lock()` of a mutex that is already held, `sync.Mutex` not being
  reentrant).

The programs in `M` follow one task at a time: a send on the unbuffered `messages`
channel is a step of the sending session and is taken to meet the broadcaster at
its receive.  What the mutex held at that send does when the broadcaster is not at
its receive is modelled separately, as the two-task system `Handshake`.
-/

namespace ChatServer

/-! ## Go maps -/

/-- A Go `map[K]V`: finitely many entries with pairwise distinct keys.  The order
of `entries` stands for the (unspecified) iteration order of `range`. -/
structure GoMap (κ : Type) (ν : Type) where
  entries : List (κ × ν)
  nodup : (entries.map Prod.fst).Nodup

namespace GoMap

theorem ext {κ ν : Type} {a b : GoMap κ ν} (h : a.entries = b.entries) : a = b := by
  cases a; cases b; cases h; rfl

variable {κ ν : Type} [DecidableEq κ]

/-- Assignment `m[k] = v` on the entry list: overwrite in place, or add. -/
def setList : List (κ × ν) → κ → ν → List (κ × ν)
  | [], k, v => [(k, v)]
  | e :: es, k, v => if e.1 = k then (k, v) :: es else e :: setList es k v

/-- Deletion `delete(m, k)` on the entry list. -/
def delList (es : List (κ × ν)) (k : κ) : List (κ × ν) :=
  es.filter (fun e => decide (e.1 ≠ k))

/-- Lookup on the entry list. -/
def getList : List (κ × ν) → κ → Option ν
  | [], _ => none
  | e :: es, k => if e.1 = k then some e.2 else getList es k

theorem keys_setList (es : List (κ × ν)) (k : κ) (v : ν) :
    (setList es k v).map Prod.fst =
      if k ∈ es.map Prod.fst then es.map Prod.fst else es.map Prod.fst ++ [k] := by
  induction es with
  | nil => simp [setList]
  | cons e es ih =>
    by_cases h : e.1 = k
    · simp [setList, h]
    · have h' : ¬ k = e.1 := fun x => h x.symm
      by_cases hk : k ∈ es.map Prod.fst
      · simp only [setList, h, if_false, List.map_cons, ih, hk, if_true, List.mem_cons, or_true]
      · simp only [setList, h, if_false, List.map_cons, ih, hk, List.mem_cons, h', or_self,
          List.cons_append]

theorem nodup_setList (es : List (κ × ν)) (k : κ) (v : ν)
    (h : (es.map Prod.fst).Nodup) : ((setList es k v).map Prod.fst).Nodup := by
  rw [keys_setList]
  split
  · exact h
  · rename_i hk
    exact List.Nodup.append h (List.nodup_singleton k) (by simpa using hk)

theorem keys_delList (es : List (κ × ν)) (k : κ) :
    (delList es k).map Prod.fst = (es.map Prod.fst).filter (fun x => decide (x ≠ k)) := by
  induction es with
  | nil => rfl
  | cons e es ih =>
    by_cases h : e.1 = k
    · simpa [delList, h] using ih
    · simpa [delList, h] using ih

theorem nodup_delList (es : List (κ × ν)) (k : κ)
    (h : (es.map Prod.fst).Nodup) : ((delList es k).map Prod.fst).Nodup := by
  rw [keys_delList]
  exact h.filter _

/-- The empty map, `make(map[K]V)`; a nil map reads the same. -/
def empty : GoMap κ ν := ⟨[], List.nodup_nil⟩

/-- The keys, in iteration order. -/
def keys (m : GoMap κ ν) : List κ := m.entries.map Prod.fst

/-- The two-result lookup `v, ok := m[k]`. -/
def get (m : GoMap κ ν) (k : κ) : Option ν := getList m.entries k

/-- The `ok` of `_, ok := m[k]`. -/
def contains (m : GoMap κ ν) (k : κ) : Bool := (m.get k).isSome

/-- Builtin `len(m)`. -/
def len (m : GoMap κ ν) : Nat := m.entries.length

/-- Assignment `m[k] = v`. -/
def set (m : GoMap κ ν) (k : κ) (v : ν) : GoMap κ ν :=
  ⟨setList m.entries k v, nodup_setList m.entries k v m.nodup⟩

/-- Builtin `delete(m, k)`. -/
def del (m : GoMap κ ν) (k : κ) : GoMap κ ν :=
  ⟨delList m.entries k, nodup_delList m.entries k m.nodup⟩

instance [DecidableEq ν] : DecidableEq (GoMap κ ν) := fun a b =>
  if h : a.entries = b.entries then isTrue (ext h)
  else isFalse (fun e => h (by rw [e]))

end GoMap

/-! ## Strings -/

/-- Go `strings.HasPrefix(s, p)`.  Go compares bytes; on valid UTF-8 (all a Lean
`String` can hold) that is the same as comparing characters. -/
def hasPrefix (s p : String) : Bool := p.data.isPrefixOf s.data

/-- Go `strings.TrimPrefix(s, p)`: `s` without the leading `p`, or `s` itself. -/
def trimPrefix (s p : String) : String :=
  if hasPrefix s p then ⟨s.data.drop p.data.length⟩ else s

/-! ## Global state, events and the execution monad -/

/-- A `net.Conn` value: an opaque handle compared by identity. -/
abbrev Conn := Nat

/-- Go `type message struct { room string; text string }`. -/
structure Message where
  room : String
  text : String
  deriving DecidableEq, Repr

/-- One observable step of a task. -/
inductive Event where
  /-- The call `mutex.Lock()` returned. -/
  | lock
  /-- The call `mutex.Unlock()`. -/
  | unlock
  /-- The channel send `messages <- m`, met by the receive of `broadcastMessages`. -/
  | send (m : Message)
  /-- A `fmt.Fprint*` of `text` to connection `c`; `ok` is false when it returned an error. -/
  | write (c : Conn) (text : String) (ok : Bool)
  /-- The call `c.Close()`. -/
  | close (c : Conn)
  /-- A `fmt.Print*` to standard output. -/
  | print (text : String)
  deriving DecidableEq, Repr

/-- Type of the global `clients` map: connection to display name. -/
abbrev Clients := GoMap Conn String

/-- Type of the global `rooms` map: room name to members (connection to the name
it had when it joined). -/
abbrev Rooms := GoMap String (GoMap Conn String)

/-- The package-level variables `clients`, `rooms` and `mutex`, the environment
(`broken`: the connections on which a write returns an error, because the peer is
gone or the connection was closed) and the trace of steps taken so far. -/
structure World where
  clients : Clients
  rooms : Rooms
  held : Bool
  broken : List Conn
  trace : List Event
  deriving DecidableEq

/-- How a call ends: it returns (`done`) or the task waits forever on the mutex
(`blocked`), in either case in some world. -/
inductive Outcome (α : Type) where
  | done (a : α) (w : World)
  | blocked (w : World)

/-- The world in which an outcome leaves the server. -/
def Outcome.world {α : Type} : Outcome α → World
  | .done _ w => w
  | .blocked w => w

/-- Whether the call returned. -/
def Outcome.returned {α : Type} : Outcome α → Bool
  | .done _ _ => true
  | .blocked _ => false

/-- The returned value, if the call returned. -/
def Outcome.value {α : Type} : Outcome α → Option α
  | .done a _ => some a
  | .blocked _ => none

/-- Programs of one task over the world. -/
def M (α : Type) : Type := World → Outcome α

instance : Monad M where
  pure a := fun w => .done a w
  bind m f := fun w =>
    match m w with
    | .done a w1 => f a w1
    | .blocked w1 => .blocked w1

/-- Go `mutex.Lock()`.  `sync.Mutex` is not reentrant: a task that locks the mutex
while holding it waits forever, and so does every task that locks it afterwards;
calls run one after the other here, so a held mutex at a `Lock()` is that case. -/
def lock : M Unit
  | ⟨clients, rooms, held, broken, trace⟩ =>
    if held then .blocked ⟨clients, rooms, held, broken, trace⟩
    else .done () ⟨clients, rooms, true, broken, trace ++ [Event.lock]⟩

/-- Go `mutex.Unlock()`.  Every `Unlock()` of this program follows a `Lock()` of the
same task, so the fatal error of unlocking a free mutex does not arise. -/
def unlock : M Unit
  | ⟨clients, rooms, _, broken, trace⟩ =>
    .done () ⟨clients, rooms, false, broken, trace ++ [Event.unlock]⟩

/-- Record a step. -/
def emit (e : Event) : M Unit
  | ⟨clients, rooms, held, broken, trace⟩ =>
    .done () ⟨clients, rooms, held, broken, trace ++ [e]⟩

/-- Go `messages <- m` on the unbuffered channel `messages` (line 53), as a step of
the sending task: the broadcaster is taken to be at its receive, where the send
completes at once.  A send that finds the broadcaster elsewhere waits for it; that
case is the subject of `Handshake`. -/
def sendMessage (m : Message) : M Unit :=
  emit (Event.send m)

/-- Go `_, err := fmt.Fprint*(c, text)`; the result is `err == nil`. -/
def fprint (c : Conn) (text : String) : M Bool
  | ⟨clients, rooms, held, broken, trace⟩ =>
    .done (decide (c ∉ broken))
      ⟨clients, rooms, held, broken, trace ++ [Event.write c text (decide (c ∉ broken))]⟩

/-- Go `c.Close()`: later writes to `c` fail. -/
def close (c : Conn) : M Unit
  | ⟨clients, rooms, held, broken, trace⟩ =>
    .done () ⟨clients, rooms, held, c :: broken, trace ++ [Event.close c]⟩

/-- Read the global `clients`. -/
def getClients : M Clients
  | ⟨clients, rooms, held, broken, trace⟩ => .done clients ⟨clients, rooms, held, broken, trace⟩

/-- Read the global `rooms`. -/
def getRooms : M Rooms
  | ⟨clients, rooms, held, broken, trace⟩ => .done rooms ⟨clients, rooms, held, broken, trace⟩

/-- Store into the global `clients`. -/
def setClients (c : Clients) : M Unit
  | ⟨_, rooms, held, broken, trace⟩ => .done () ⟨c, rooms, held, broken, trace⟩

/-- Store into the global `rooms`. -/
def setRooms (r : Rooms) : M Unit
  | ⟨clients, _, held, broken, trace⟩ => .done () ⟨clients, r, held, broken, trace⟩

/-- A `for x := range xs` loop whose body does not touch entries not yet visited. -/
def forEach {α : Type} : List α → (α → M Unit) → M Unit
  | [], _ => pure ()
  | x :: xs, body => do
    body x
    forEach xs body

/-! ## The server functions -/

/-- Go `joinRoom` (lines 163-171). -/
def joinRoom (conn : Conn) (roomName : String) : M Unit := do
  lock
  if !(← getRooms).contains roomName then
    setRooms ((← getRooms).set roomName GoMap.empty)
  let name := ((← getClients).get conn).getD ""
  let rooms ← getRooms
  setRooms (rooms.set roomName (((rooms.get roomName).getD GoMap.empty).set conn name))
  unlock
  let _ ← fprint conn ("You have joined room " ++ roomName ++ "\n")

/-- Go `leaveRoom` (lines 173-182).  `members` is the very map stored in
`rooms[roomName]`, so `delete(members, conn)` updates that entry. -/
def leaveRoom (conn : Conn) (roomName : String) : M Unit := do
  lock
  match (← getRooms).get roomName with
  | some members =>
    let members := members.del conn
    setRooms ((← getRooms).set roomName members)
    if members.len = 0 then
      setRooms ((← getRooms).del roomName)
  | none => pure ()
  unlock

/-- Go `handleCommand` (lines 114-161); the `*currentRoom` in-out parameter is
passed in and returned. -/
def handleCommand (conn : Conn) (cmd : String) (currentRoom : String) : M String := do
  if hasPrefix cmd "/name " then
    let newName := trimPrefix cmd "/name "
    lock
    setClients ((← getClients).set conn newName)
    unlock
    let _ ← fprint conn ("Your name has been changed to " ++ newName ++ "\n")
    pure currentRoom
  else if cmd = "/listall" then
    lock
    forEach (← getClients).keys fun c => do
      let _ ← fprint conn ((((← getClients).get c).getD "") ++ "\n")
    unlock
    pure currentRoom
  else if hasPrefix cmd "/join " then
    let roomName := trimPrefix cmd "/join "
    joinRoom conn roomName
    pure roomName
  else if cmd = "/leave" then
    if currentRoom ≠ "" then
      leaveRoom conn currentRoom
      let _ ← fprint conn "You have left the room.\n"
      pure ""
    else
      let _ ← fprint conn "You are not in any room.\n"
      pure currentRoom
  else if cmd = "/rooms" then
    lock
    forEach (← getRooms).keys fun room => do
      let _ ← fprint conn (room ++ "\n")
    unlock
    pure currentRoom
  else if cmd = "/list" then
    if currentRoom ≠ "" then
      lock
      forEach (((← getRooms).get currentRoom).getD GoMap.empty).keys fun member => do
        let _ ← fprint conn ((((← getClients).get member).getD "") ++ "\n")
      unlock
      pure currentRoom
    else
      let _ ← fprint conn "You are not in any room.\n"
      pure currentRoom
  else if cmd = "/exit" then
    close conn
    pure currentRoom
  else
    let _ ← fprint conn "Unknown command. Type /list to see available commands.\n"
    pure currentRoom

/-- The start of Go `handleConnection` (lines 69-86): register the connection under
its remote address and send the banner. -/
def register (conn : Conn) (clientName : String) : M Unit := do
  lock
  setClients ((← getClients).set conn clientName)
  unlock
  let _ ← fprint conn "Available commands:\n"
  let _ ← fprint conn "/name <new_name> - Change your name\n"
  let _ ← fprint conn "/listall - List all connected clients\n"
  let _ ← fprint conn "/join <room> - Join a room\n"
  let _ ← fprint conn "/leave - Leave the current room\n"
  let _ ← fprint conn "/rooms - List all rooms\n"
  let _ ← fprint conn "/list - List all room participants\n"
  let _ ← fprint conn "/exit - Exit the chat\n"
  let _ ← fprint conn "Type your message below:\n"

/-- The body of the scanner loop of Go `handleConnection` (lines 90-102) for one
input line `msg`; returns the new value of `currentRoom`.  The chat branch sends
while it holds the mutex (lines 98-100). -/
def handleLine (conn : Conn) (msg : String) (currentRoom : String) : M String := do
  if hasPrefix msg "/" then
    handleCommand conn msg currentRoom
  else if currentRoom = "" then
    let _ ← fprint conn "You are not in any room. Use /join <room> to join a room.\n"
    pure currentRoom
  else
    lock
    sendMessage ⟨currentRoom, "[" ++ (((← getClients).get conn).getD "") ++ "]: " ++ msg⟩
    unlock
    pure currentRoom

/-- The scanner loop of Go `handleConnection` (lines 89-103) over the lines the
scanner yields before it stops (after `/exit` has closed the connection these are
the lines the scanner had already buffered). -/
def scanLoop (conn : Conn) : List String → String → M String
  | [], currentRoom => pure currentRoom
  | msg :: rest, currentRoom => do
    let next ← handleLine conn msg currentRoom
    scanLoop conn rest next

/-- The end of Go `handleConnection` (lines 105-111 and the deferred
`conn.Close()`). -/
def cleanup (conn : Conn) (clientName : String) (currentRoom : String) : M Unit := do
  if currentRoom ≠ "" then
    leaveRoom conn currentRoom
  lock
  setClients ((← getClients).del conn)
  unlock
  emit (Event.print ("Client " ++ clientName ++ " disconnected\n"))
  close conn

/-- Go `handleConnection` up to the end of the scanner loop (lines 69-103); returns
the value `currentRoom` has when the loop ends. -/
def serve (conn : Conn) (clientName : String) (lines : List String) : M String := do
  register conn clientName
  scanLoop conn lines ""

/-- Go `handleConnection` (lines 67-112) for a connection whose remote address
prints as `clientName` and whose scanner yields `lines`. -/
def handleConnection (conn : Conn) (clientName : String) (lines : List String) : M Unit := do
  let currentRoom ← serve conn clientName lines
  cleanup conn clientName currentRoom

/-- The body of the inner loop of Go `broadcastMessages` (lines 189-195): write the
message to one member and, when the write fails, log it (the text of the error is
left out), close the member, delete it from `clients` and call `leaveRoom`. -/
def broadcastTo (msg : Message) (client : Conn) : M Unit := do
  let ok ← fprint client (msg.text ++ "\n")
  if !ok then
    emit (Event.print "Error broadcasting message:")
    close client
    setClients ((← getClients).del client)
    leaveRoom client msg.room

/-- The body of the outer loop of Go `broadcastMessages` (lines 186-198) for one
received message. -/
def broadcastMessage (msg : Message) : M Unit := do
  lock
  match (← getRooms).get msg.room with
  | some members => forEach members.keys (broadcastTo msg)
  | none => pure ()
  unlock

/-- Go `broadcastMessages` (lines 184-200) over the messages received from the
channel. -/
def broadcastMessages (msgs : List Message) : M Unit :=
  forEach msgs broadcastMessage

/-- The server at start: empty registries, mutex free, no step taken. -/
def World.init : World := ⟨GoMap.empty, GoMap.empty, false, [], []⟩

/-! ## Notions used to state the properties -/

/-- The members of room `r`: Go `rooms[r]`, a nil (empty) map when `r` is not registered. -/
def members (rooms : Rooms) (r : String) : GoMap Conn String :=
  (rooms.get r).getD GoMap.empty

/-- The display name Go reads as `clients[c]`: the empty string when `c` is absent. -/
def nameOf (clients : Clients) (c : Conn) : String :=
  (clients.get c).getD ""

/-- The `rooms` map after `joinRoom conn roomName` with the registries `clients`, `rooms`. -/
def roomsAfterJoin (clients : Clients) (rooms : Rooms) (conn : Conn) (roomName : String) : Rooms :=
  rooms.set roomName ((members rooms roomName).set conn (nameOf clients conn))

/-- The `rooms` map after `leaveRoom conn roomName`. -/
def roomsAfterLeave (rooms : Rooms) (conn : Conn) (roomName : String) : Rooms :=
  match rooms.get roomName with
  | some ms => if (ms.del conn).len = 0 then rooms.del roomName else rooms.set roomName (ms.del conn)
  | none => rooms

/-- No registered room has an empty member set. -/
def RoomsOK (rooms : Rooms) : Prop :=
  ∀ r ms, rooms.get r = some ms → ms.keys ≠ []

/-- The program `m` keeps the property `P` of the world, whether it returns or blocks. -/
def Keeps {α : Type} (P : World → Prop) (m : M α) : Prop :=
  ∀ w, P w → P (m w).world

/-- A property of the world that only looks at the `rooms` map. -/
def OnRooms (Q : Rooms → Prop) : World → Prop := fun w => Q w.rooms

/-- One call of a server function by some task, or a peer going away.  Each call
runs to its end (return or block) before the next one starts. -/
inductive Call where
  | joinRoom (conn : Conn) (roomName : String)
  | leaveRoom (conn : Conn) (roomName : String)
  | handleCommand (conn : Conn) (cmd : String) (currentRoom : String)
  | handleLine (conn : Conn) (msg : String) (currentRoom : String)
  | register (conn : Conn) (clientName : String)
  | cleanup (conn : Conn) (clientName : String) (currentRoom : String)
  | handleConnection (conn : Conn) (clientName : String) (lines : List String)
  | broadcastMessage (msg : Message)
  | peerGone (conn : Conn)

/-- The world after a call. -/
def Call.run : Call → World → World
  | .joinRoom c r, w => (ChatServer.joinRoom c r w).world
  | .leaveRoom c r, w => (ChatServer.leaveRoom c r w).world
  | .handleCommand c cmd cur, w => (ChatServer.handleCommand c cmd cur w).world
  | .handleLine c msg cur, w => (ChatServer.handleLine c msg cur w).world
  | .register c name, w => (ChatServer.register c name w).world
  | .cleanup c name cur, w => (ChatServer.cleanup c name cur w).world
  | .handleConnection c name lines, w => (ChatServer.handleConnection c name lines w).world
  | .broadcastMessage msg, w => (ChatServer.broadcastMessage msg w).world
  | .peerGone c, w => { w with broken := c :: w.broken }

/-- The world after a sequence of calls. -/
def runCalls (calls : List Call) (w : World) : World :=
  calls.foldl (fun w c => c.run w) w

/-- Connections 1 (`a`) and 2 (`b`) are registered and both members of room `r`. -/
def twoInRoom : World :=
  runCalls [Call.register 1 "a", Call.register 2 "b", Call.joinRoom 1 "r", Call.joinRoom 2 "r"]
    World.init

/-- The world `twoInRoom` after the peer of connection 1 has gone away. -/
def twoInRoomOneGone : World := (Call.peerGone 1).run twoInRoom

/-- Replays a trace from a mutex that is `held` or not and reports whether some
channel send or socket write happens while the mutex is held. -/
def ioUnderLock : Bool → List Event → Bool
  | _, [] => false
  | _, Event.lock :: es => ioUnderLock true es
  | _, Event.unlock :: es => ioUnderLock false es
  | held, Event.send _ :: es => held || ioUnderLock held es
  | held, Event.write _ _ _ :: es => held || ioUnderLock held es
  | held, Event.close _ :: es => ioUnderLock held es
  | held, Event.print _ :: es => ioUnderLock held es

/-- The lock discipline for one execution that started with the mutex free and an
empty trace: the call returned (it never waited on a mutex it held itself), the
mutex is free at the return, and no send or write happened under the mutex. -/
def LockDiscipline {α : Type} (o : Outcome α) : Prop :=
  o.returned = true ∧ o.world.held = false ∧ ioUnderLock false o.world.trace = false

instance {α : Type} (o : Outcome α) : Decidable (LockDiscipline o) := by
  unfold LockDiscipline
  infer_instance

/-- The two tasks that meet on the `messages` channel. -/
inductive Task where
  /-- A `handleConnection` sending chat lines (lines 98-100). -/
  | session
  /-- The one `broadcastMessages` (lines 185-198). -/
  | broadcaster
  deriving DecidableEq, Repr

/-- The statement a session in the chat branch of `handleConnection` executes next. -/
inductive SessionAt where
  /-- Line 98, `mutex.Lock()`. -/
  | lock98
  /-- Line 99, `messages <- message{...}`. -/
  | send99
  /-- Line 100, `mutex.Unlock()`. -/
  | unlock100
  /-- All chat lines are sent. -/
  | finished
  deriving DecidableEq, Repr

/-- The statement `broadcastMessages` executes next. -/
inductive BroadcasterAt where
  /-- Line 185, the receive of `for msg := range messages`. -/
  | receive185
  /-- Line 186, `mutex.Lock()`, with a message received. -/
  | lock186
  /-- Line 198, `mutex.Unlock()`, after the writes of lines 187-197 (none failing). -/
  | unlock198
  deriving DecidableEq, Repr

/-- A session that sends chat lines, next to the broadcaster, reduced to what the
mutex and the unbuffered channel see: who holds `mutex`, where each task is, and how
many chat lines the session still has to send (the one in hand included). -/
structure Handshake where
  holder : Option Task
  session : SessionAt
  chatLines : Nat
  broadcaster : BroadcasterAt
  deriving DecidableEq, Repr

/-- One step of a task, when it can take one.  `mutex.Lock()` needs the mutex free;
the send of line 99 and the receive of line 185 happen together or not at all, the
channel being unbuffered, and are the session's step. -/
def Handshake.step : Task → Handshake → Option Handshake
  | .session, h =>
    match h.session with
    | .lock98 =>
      if h.holder = none then some { h with holder := some .session, session := .send99 }
      else none
    | .send99 =>
      if h.broadcaster = .receive185 then
        some { h with session := .unlock100, broadcaster := .lock186 }
      else none
    | .unlock100 =>
      some { h with
        holder := none
        chatLines := h.chatLines - 1
        session := if h.chatLines - 1 = 0 then .finished else .lock98 }
    | .finished => none
  | .broadcaster, h =>
    match h.broadcaster with
    | .receive185 => none
    | .lock186 =>
      if h.holder = none then
        some { h with holder := some .broadcaster, broadcaster := .unlock198 }
      else none
    | .unlock198 => some { h with holder := none, broadcaster := .receive185 }

/-- The state after the tasks take steps in the given order, if each can. -/
def Handshake.run : List Task → Handshake → Option Handshake
  | [], h => some h
  | t :: ts, h =>
    match Handshake.step t h with
    | some h1 => Handshake.run ts h1
    | none => none

/-- A session about to send `n` chat lines, the mutex free and the broadcaster at
its receive. -/
def Handshake.start (n : Nat) : Handshake :=
  ⟨none, if n = 0 then .finished else .lock98, n, .receive185⟩

/-! ## Facts about Go maps -/

namespace GoMap

theorem nodup_keys {κ ν : Type} (m : GoMap κ ν) : m.keys.Nodup := m.nodup

theorem len_eq_zero_iff {κ ν : Type} (m : GoMap κ ν) : m.len = 0 ↔ m.keys = [] := by
  simp [len, keys]

@[simp] theorem keys_empty {κ ν : Type} : (empty : GoMap κ ν).keys = [] := rfl

variable {κ ν : Type} [DecidableEq κ]

theorem getList_setList_same (es : List (κ × ν)) (k : κ) (v : ν) :
    getList (setList es k v) k = some v := by
  induction es with
  | nil => simp [setList, getList]
  | cons e es ih =>
    by_cases h : e.1 = k
    · simp [setList, getList, h]
    · simp [setList, getList, h, ih]

theorem getList_setList_ne (es : List (κ × ν)) (k j : κ) (v : ν) (hj : j ≠ k) :
    getList (setList es k v) j = getList es j := by
  induction es with
  | nil => simp [setList, getList, Ne.symm hj]
  | cons e es ih =>
    obtain ⟨a, b⟩ := e
    by_cases h : a = k
    · subst h
      simp [setList, getList, Ne.symm hj]
    · by_cases h2 : a = j
      · subst h2
        simp [setList, getList, h]
      · simp [setList, getList, h, h2, ih]

theorem getList_delList_same (es : List (κ × ν)) (k : κ) :
    getList (delList es k) k = none := by
  induction es with
  | nil => rfl
  | cons e es ih =>
    obtain ⟨a, b⟩ := e
    by_cases h : a = k
    · simpa [delList, h] using ih
    · simpa [delList, getList, h] using ih

theorem getList_delList_ne (es : List (κ × ν)) (k j : κ) (hj : j ≠ k) :
    getList (delList es k) j = getList es j := by
  induction es with
  | nil => rfl
  | cons e es ih =>
    obtain ⟨a, b⟩ := e
    by_cases h : a = k
    · subst h
      simpa [delList, getList, Ne.symm hj] using ih
    · by_cases h2 : a = j
      · subst h2
        simp [delList, getList, h]
      · simpa [delList, getList, h, h2] using ih

theorem setList_setList (es : List (κ × ν)) (k : κ) (v u : ν) :
    setList (setList es k v) k u = setList es k u := by
  induction es with
  | nil => simp [setList]
  | cons e es ih =>
    by_cases h : e.1 = k
    · simp [setList, h]
    · simp [setList, h, ih]

theorem setList_of_getList (es : List (κ × ν)) (k : κ) (v : ν)
    (h : getList es k = some v) : setList es k v = es := by
  induction es with
  | nil => simp [getList] at h
  | cons e es ih =>
    by_cases hk : e.1 = k
    · simp only [getList, hk, if_true, Option.some.injEq] at h
      simp only [setList, hk, if_true]
      rw [← hk, ← h]
    · simp only [getList, hk, if_false] at h
      simp [setList, hk, ih h]

theorem getList_eq_none_iff (es : List (κ × ν)) (k : κ) :
    getList es k = none ↔ k ∉ es.map Prod.fst := by
  induction es with
  | nil => simp [getList]
  | cons e es ih =>
    by_cases h : e.1 = k
    · simp [getList, h]
    · have h2 : ¬ k = e.1 := fun x => h x.symm
      simp [getList, h, h2, ih]

theorem delList_of_not_mem (es : List (κ × ν)) (k : κ) (h : k ∉ es.map Prod.fst) :
    delList es k = es := by
  unfold delList
  rw [List.filter_eq_self]
  intro e he
  have : e.1 ≠ k := fun x => h (x ▸ List.mem_map_of_mem Prod.fst he)
  simpa using this

theorem delList_setList (es : List (κ × ν)) (k : κ) (v : ν) :
    delList (setList es k v) k = delList es k := by
  induction es with
  | nil => simp [setList, delList]
  | cons e es ih =>
    by_cases h : e.1 = k
    · simp [setList, delList, h]
    · simpa [setList, delList, h] using ih

@[simp] theorem get_empty (k : κ) : (empty : GoMap κ ν).get k = none := rfl

@[simp] theorem get_set_same (m : GoMap κ ν) (k : κ) (v : ν) : (m.set k v).get k = some v :=
  getList_setList_same m.entries k v

theorem get_set_ne (m : GoMap κ ν) (k j : κ) (v : ν) (hj : j ≠ k) :
    (m.set k v).get j = m.get j :=
  getList_setList_ne m.entries k j v hj

@[simp] theorem get_del_same (m : GoMap κ ν) (k : κ) : (m.del k).get k = none :=
  getList_delList_same m.entries k

theorem get_del_ne (m : GoMap κ ν) (k j : κ) (hj : j ≠ k) : (m.del k).get j = m.get j :=
  getList_delList_ne m.entries k j hj

@[simp] theorem set_set (m : GoMap κ ν) (k : κ) (v u : ν) : (m.set k v).set k u = m.set k u :=
  ext (setList_setList m.entries k v u)

theorem set_of_get (m : GoMap κ ν) (k : κ) (v : ν) (h : m.get k = some v) : m.set k v = m :=
  ext (setList_of_getList m.entries k v h)

theorem get_eq_none_iff (m : GoMap κ ν) (k : κ) : m.get k = none ↔ k ∉ m.keys :=
  getList_eq_none_iff m.entries k

theorem mem_keys_iff (m : GoMap κ ν) (k : κ) : k ∈ m.keys ↔ ∃ v, m.get k = some v := by
  rw [← not_iff_not, ← get_eq_none_iff]
  cases m.get k <;> simp

theorem del_of_not_mem (m : GoMap κ ν) (k : κ) (h : k ∉ m.keys) : m.del k = m :=
  ext (delList_of_not_mem m.entries k h)

@[simp] theorem del_set (m : GoMap κ ν) (k : κ) (v : ν) : (m.set k v).del k = m.del k :=
  ext (delList_setList m.entries k v)

theorem keys_set (m : GoMap κ ν) (k : κ) (v : ν) :
    (m.set k v).keys = if k ∈ m.keys then m.keys else m.keys ++ [k] :=
  keys_setList m.entries k v

theorem keys_del (m : GoMap κ ν) (k : κ) :
    (m.del k).keys = m.keys.filter (fun x => decide (x ≠ k)) :=
  keys_delList m.entries k

theorem mem_keys_set (m : GoMap κ ν) (k j : κ) (v : ν) :
    j ∈ (m.set k v).keys ↔ j = k ∨ j ∈ m.keys := by
  rw [keys_set]
  split
  · rename_i h
    constructor
    · exact Or.inr
    · rintro (rfl | h2)
      · exact h
      · exact h2
  · simp [or_comm]

theorem mem_keys_del (m : GoMap κ ν) (k j : κ) :
    j ∈ (m.del k).keys ↔ j ≠ k ∧ j ∈ m.keys := by
  rw [keys_del]
  simp [and_comm]

theorem contains_eq_false_iff (m : GoMap κ ν) (k : κ) : m.contains k = false ↔ m.get k = none := by
  simp [contains]

end GoMap

/-! ## Running the primitives -/

@[simp] theorem pure_run {α : Type} (a : α) (w : World) :
    (pure a : M α) w = Outcome.done a w := rfl

@[simp] theorem bind_run {α β : Type} (m : M α) (f : α → M β) (w : World) :
    (m >>= f) w = match m w with
      | .done a w1 => f a w1
      | .blocked w1 => .blocked w1 := rfl

theorem lock_run (w : World) :
    lock w = if w.held then Outcome.blocked w
      else Outcome.done () { w with held := true, trace := w.trace ++ [Event.lock] } := by
  cases w; rfl

theorem unlock_run (w : World) :
    unlock w = Outcome.done () { w with held := false, trace := w.trace ++ [Event.unlock] } := by
  cases w; rfl

theorem emit_run (e : Event) (w : World) :
    emit e w = Outcome.done () { w with trace := w.trace ++ [e] } := by
  cases w; rfl

theorem sendMessage_run (m : Message) (w : World) :
    sendMessage m w = Outcome.done () { w with trace := w.trace ++ [Event.send m] } := by
  cases w; rfl

theorem fprint_run (c : Conn) (text : String) (w : World) :
    fprint c text w = Outcome.done (decide (c ∉ w.broken))
      { w with trace := w.trace ++ [Event.write c text (decide (c ∉ w.broken))] } := by
  cases w; rfl

theorem close_run (c : Conn) (w : World) :
    close c w = Outcome.done ()
      { w with broken := c :: w.broken, trace := w.trace ++ [Event.close c] } := by
  cases w; rfl

theorem getClients_run (w : World) : getClients w = Outcome.done w.clients w := by
  cases w; rfl

theorem getRooms_run (w : World) : getRooms w = Outcome.done w.rooms w := by
  cases w; rfl

theorem setClients_run (c : Clients) (w : World) :
    setClients c w = Outcome.done () { w with clients := c } := by
  cases w; rfl

theorem setRooms_run (r : Rooms) (w : World) :
    setRooms r w = Outcome.done () { w with rooms := r } := by
  cases w; rfl

theorem lock_free (w : World) (h : w.held = false) :
    lock w = Outcome.done () { w with held := true, trace := w.trace ++ [Event.lock] } := by
  simp [lock_run, h]

theorem lock_held (w : World) (h : w.held = true) : lock w = Outcome.blocked w := by
  simp [lock_run, h]

theorem joinRoom_free (conn : Conn) (roomName : String) (w : World) (h : w.held = false) :
    joinRoom conn roomName w = Outcome.done ()
      { w with
        rooms := roomsAfterJoin w.clients w.rooms conn roomName
        trace := w.trace ++ [Event.lock, Event.unlock,
          Event.write conn ("You have joined room " ++ roomName ++ "\n")
            (decide (conn ∉ w.broken))] } := by
  cases hg : w.rooms.get roomName with
  | none =>
    simp [joinRoom, lock_free w h, unlock_run, fprint_run, getRooms_run, getClients_run, setRooms_run, roomsAfterJoin,
      members, nameOf, GoMap.contains, hg, h]
  | some ms =>
    simp [joinRoom, lock_free w h, unlock_run, fprint_run, getRooms_run, getClients_run, setRooms_run, roomsAfterJoin,
      members, nameOf, GoMap.contains, hg, h]

theorem joinRoom_held (conn : Conn) (roomName : String) (w : World) (h : w.held = true) :
    joinRoom conn roomName w = Outcome.blocked w := by
  simp only [joinRoom, bind_run, lock_held w h]

theorem leaveRoom_free (conn : Conn) (roomName : String) (w : World) (h : w.held = false) :
    leaveRoom conn roomName w = Outcome.done ()
      { w with
        rooms := roomsAfterLeave w.rooms conn roomName
        trace := w.trace ++ [Event.lock, Event.unlock] } := by
  cases hg : w.rooms.get roomName with
  | none => simp [leaveRoom, lock_free w h, unlock_run, roomsAfterLeave, hg, getRooms_run, h]
  | some ms =>
    by_cases hl : (ms.del conn).len = 0
    · simp [leaveRoom, lock_free w h, unlock_run, roomsAfterLeave, hg, hl, setRooms_run, getRooms_run, h]
    · simp [leaveRoom, lock_free w h, unlock_run, roomsAfterLeave, hg, hl, setRooms_run, getRooms_run, h]

theorem leaveRoom_held (conn : Conn) (roomName : String) (w : World) (h : w.held = true) :
    leaveRoom conn roomName w = Outcome.blocked w := by
  simp only [leaveRoom, bind_run, lock_held w h]

/-- A loop whose body only appends one event per element, the event not depending
on the trace, appends the events in order. -/
theorem forEach_events {α : Type} (body : α → M Unit) (ev : α → World → Event)
    (hbody : ∀ x w, body x w = Outcome.done () { w with trace := w.trace ++ [ev x w] })
    (hev : ∀ x w t, ev x { w with trace := t } = ev x w) (xs : List α) :
    ∀ w, forEach xs body w =
      Outcome.done () { w with trace := w.trace ++ xs.map (fun x => ev x w) } := by
  induction xs with
  | nil => intro w; simp [forEach]
  | cons x xs ih =>
    intro w
    simp [forEach, hbody, ih, hev]

/-! ## Strings: prefixes of the command words -/

theorem hasPrefix_append (p n : String) : hasPrefix (p ++ n) p = true := by
  simp [hasPrefix, String.data_append, List.isPrefixOf_iff_prefix]

theorem trimPrefix_append (p n : String) : trimPrefix (p ++ n) p = n := by
  simp [trimPrefix, hasPrefix_append, String.data_append]

theorem join_not_name (r : String) : hasPrefix ("/join " ++ r) "/name " = false := by
  simp [hasPrefix, String.data_append, List.isPrefixOf]

theorem join_ne_listall (r : String) : "/join " ++ r ≠ "/listall" := by
  intro h
  have := congrArg String.data h
  simp [String.data_append] at this

theorem handleCommand_name (conn : Conn) (n cur : String) (w : World) (h : w.held = false) :
    handleCommand conn ("/name " ++ n) cur w = Outcome.done cur
      { w with
        clients := w.clients.set conn n
        trace := w.trace ++ [Event.lock, Event.unlock,
          Event.write conn ("Your name has been changed to " ++ n ++ "\n")
            (decide (conn ∉ w.broken))] } := by
  simp [handleCommand, hasPrefix_append, trimPrefix_append, lock_free w h, unlock_run, fprint_run,
    getClients_run, setClients_run, h]

theorem handleCommand_join (conn : Conn) (r cur : String) (w : World) (h : w.held = false) :
    handleCommand conn ("/join " ++ r) cur w = Outcome.done r
      { w with
        rooms := roomsAfterJoin w.clients w.rooms conn r
        trace := w.trace ++ [Event.lock, Event.unlock,
          Event.write conn ("You have joined room " ++ r ++ "\n")
            (decide (conn ∉ w.broken))] } := by
  simp [handleCommand, hasPrefix_append, trimPrefix_append, join_not_name, join_ne_listall,
    joinRoom_free _ _ w h]

/-! ## Every registered room has a member -/

theorem roomsOK_empty : RoomsOK GoMap.empty := by
  intro r ms h
  simp at h

theorem roomsOK_afterJoin (clients : Clients) (rooms : Rooms) (c : Conn) (r : String)
    (h : RoomsOK rooms) : RoomsOK (roomsAfterJoin clients rooms c r) := by
  intro x ms hx
  by_cases hxr : x = r
  · subst hxr
    simp only [roomsAfterJoin, GoMap.get_set_same, Option.some.injEq] at hx
    subst hx
    intro he
    have : c ∈ ((members rooms x).set c (nameOf clients c)).keys :=
      (GoMap.mem_keys_set _ _ _ _).2 (Or.inl rfl)
    rw [he] at this
    simp at this
  · rw [roomsAfterJoin, GoMap.get_set_ne _ _ _ _ hxr] at hx
    exact h x ms hx

theorem roomsOK_afterLeave (rooms : Rooms) (c : Conn) (r : String)
    (h : RoomsOK rooms) : RoomsOK (roomsAfterLeave rooms c r) := by
  intro x ms hx
  unfold roomsAfterLeave at hx
  cases hg : rooms.get r with
  | none =>
    rw [hg] at hx
    exact h x ms hx
  | some old =>
    rw [hg] at hx
    simp only at hx
    by_cases hxr : x = r
    · subst hxr
      split at hx
      · simp at hx
      · rename_i hl
        simp only [GoMap.get_set_same, Option.some.injEq] at hx
        subst hx
        rwa [GoMap.len_eq_zero_iff] at hl
    · split at hx
      · rw [GoMap.get_del_ne _ _ _ hxr] at hx
        exact h x ms hx
      · rw [GoMap.get_set_ne _ _ _ _ hxr] at hx
        exact h x ms hx

theorem keeps_pure {α : Type} (P : World → Prop) (a : α) : Keeps P (pure a : M α) :=
  fun _ h => h

theorem keeps_bind {α β : Type} (P : World → Prop) (m : M α) (f : α → M β)
    (hm : Keeps P m) (hf : ∀ a, Keeps P (f a)) : Keeps P (m >>= f) := by
  intro w hw
  have h1 := hm w hw
  rw [bind_run]
  cases hmw : m w with
  | done a w1 =>
    rw [hmw] at h1
    exact hf a w1 h1
  | blocked w1 =>
    rw [hmw] at h1
    exact h1

theorem keeps_ite {α : Type} (P : World → Prop) (c : Prop) [Decidable c] (m1 m2 : M α)
    (h1 : Keeps P m1) (h2 : Keeps P m2) : Keeps P (if c then m1 else m2) := by
  split
  · exact h1
  · exact h2

theorem keeps_forEach {α : Type} (P : World → Prop) (body : α → M Unit)
    (hb : ∀ x, Keeps P (body x)) (xs : List α) : Keeps P (forEach xs body) := by
  induction xs with
  | nil => exact keeps_pure P ()
  | cons x xs ih => exact keeps_bind P _ _ (hb x) (fun _ => ih)

theorem keeps_lock (Q : Rooms → Prop) : Keeps (OnRooms Q) lock := by
  intro w h
  rw [lock_run]
  split <;> exact h

theorem keeps_unlock (Q : Rooms → Prop) : Keeps (OnRooms Q) unlock := fun _ h => h

theorem keeps_emit (Q : Rooms → Prop) (e : Event) : Keeps (OnRooms Q) (emit e) := fun _ h => h

theorem keeps_sendMessage (Q : Rooms → Prop) (m : Message) :
    Keeps (OnRooms Q) (sendMessage m) := fun _ h => h

theorem keeps_fprint (Q : Rooms → Prop) (c : Conn) (t : String) :
    Keeps (OnRooms Q) (fprint c t) := fun _ h => h

theorem keeps_close (Q : Rooms → Prop) (c : Conn) : Keeps (OnRooms Q) (close c) := fun _ h => h

theorem keeps_getClients (Q : Rooms → Prop) : Keeps (OnRooms Q) getClients := fun _ h => h

theorem keeps_getRooms (Q : Rooms → Prop) : Keeps (OnRooms Q) getRooms := fun _ h => h

theorem keeps_setClients (Q : Rooms → Prop) (c : Clients) :
    Keeps (OnRooms Q) (setClients c) := fun _ h => h

theorem keeps_joinRoom (c : Conn) (r : String) : Keeps (OnRooms RoomsOK) (joinRoom c r) := by
  intro w h
  cases hh : w.held with
  | false =>
    rw [joinRoom_free c r w hh]
    exact roomsOK_afterJoin _ _ _ _ h
  | true =>
    rw [joinRoom_held c r w hh]
    exact h

theorem keeps_leaveRoom (c : Conn) (r : String) : Keeps (OnRooms RoomsOK) (leaveRoom c r) := by
  intro w h
  cases hh : w.held with
  | false =>
    rw [leaveRoom_free c r w hh]
    exact roomsOK_afterLeave _ _ _ h
  | true =>
    rw [leaveRoom_held c r w hh]
    exact h

theorem keeps_handleCommand (c : Conn) (cmd cur : String) :
    Keeps (OnRooms RoomsOK) (handleCommand c cmd cur) := by
  unfold handleCommand
  with_reducible repeat' first
    | exact keeps_pure _ _
    | exact keeps_lock _
    | exact keeps_unlock _
    | exact keeps_emit _ _
    | exact keeps_fprint _ _ _
    | exact keeps_close _ _
    | exact keeps_getClients _
    | exact keeps_getRooms _
    | exact keeps_setClients _ _
    | exact keeps_joinRoom _ _
    | exact keeps_leaveRoom _ _
    | refine keeps_ite _ _ _ _ ?_ ?_
    | refine keeps_forEach _ _ (fun _ => ?_) _
    | refine keeps_bind _ _ _ ?_ (fun _ => ?_)

theorem keeps_handleLine (c : Conn) (msg cur : String) :
    Keeps (OnRooms RoomsOK) (handleLine c msg cur) := by
  unfold handleLine
  with_reducible repeat' first
    | exact keeps_pure _ _
    | exact keeps_lock _
    | exact keeps_unlock _
    | exact keeps_sendMessage _ _
    | exact keeps_fprint _ _ _
    | exact keeps_getClients _
    | exact keeps_handleCommand _ _ _
    | refine keeps_ite _ _ _ _ ?_ ?_
    | refine keeps_bind _ _ _ ?_ (fun _ => ?_)

theorem keeps_register (c : Conn) (name : String) :
    Keeps (OnRooms RoomsOK) (register c name) := by
  unfold register
  with_reducible repeat' first
    | exact keeps_pure _ _
    | exact keeps_lock _
    | exact keeps_unlock _
    | exact keeps_fprint _ _ _
    | exact keeps_getClients _
    | exact keeps_setClients _ _
    | refine keeps_bind _ _ _ ?_ (fun _ => ?_)

theorem keeps_cleanup (c : Conn) (name cur : String) :
    Keeps (OnRooms RoomsOK) (cleanup c name cur) := by
  unfold cleanup
  with_reducible repeat' first
    | exact keeps_pure _ _
    | exact keeps_lock _
    | exact keeps_unlock _
    | exact keeps_emit _ _
    | exact keeps_close _ _
    | exact keeps_getClients _
    | exact keeps_setClients _ _
    | exact keeps_leaveRoom _ _
    | refine keeps_ite _ _ _ _ ?_ ?_
    | refine keeps_bind _ _ _ ?_ (fun _ => ?_)

theorem keeps_scanLoop (c : Conn) (lines : List String) :
    ∀ cur, Keeps (OnRooms RoomsOK) (scanLoop c lines cur) := by
  induction lines with
  | nil => exact fun cur => keeps_pure _ cur
  | cons l ls ih => exact fun cur => keeps_bind _ _ _ (keeps_handleLine c l cur) (fun a => ih a)

theorem keeps_serve (c : Conn) (name : String) (lines : List String) :
    Keeps (OnRooms RoomsOK) (serve c name lines) :=
  keeps_bind _ _ _ (keeps_register c name) (fun _ => keeps_scanLoop c lines "")

theorem keeps_handleConnection (c : Conn) (name : String) (lines : List String) :
    Keeps (OnRooms RoomsOK) (handleConnection c name lines) :=
  keeps_bind _ _ _ (keeps_serve c name lines) (fun cur => keeps_cleanup c name cur)

theorem keeps_broadcastTo (msg : Message) (client : Conn) :
    Keeps (OnRooms RoomsOK) (broadcastTo msg client) := by
  unfold broadcastTo
  with_reducible repeat' first
    | exact keeps_pure _ _
    | exact keeps_emit _ _
    | exact keeps_close _ _
    | exact keeps_fprint _ _ _
    | exact keeps_getClients _
    | exact keeps_setClients _ _
    | exact keeps_leaveRoom _ _
    | refine keeps_ite _ _ _ _ ?_ ?_
    | refine keeps_bind _ _ _ ?_ (fun _ => ?_)

theorem keeps_broadcastMessage (msg : Message) :
    Keeps (OnRooms RoomsOK) (broadcastMessage msg) := by
  unfold broadcastMessage
  refine keeps_bind _ _ _ (keeps_lock _) (fun _ => keeps_bind _ _ _ (keeps_getRooms _) (fun rooms => ?_))
  split
  · exact keeps_bind _ _ _ (keeps_forEach _ _ (keeps_broadcastTo msg) _) (fun _ => keeps_unlock _)
  · exact keeps_bind _ _ _ (keeps_pure _ _) (fun _ => keeps_unlock _)

/-! ## The listing loops -/

theorem forEach_fprint {α : Type} (conn : Conn) (text : α → String) (xs : List α) (w : World) :
    forEach xs (fun x => do let _ ← fprint conn (text x)) w =
      Outcome.done () { w with
        trace := (w.trace ++
          xs.map (fun x => Event.write conn (text x) (decide (conn ∉ w.broken)))) } :=
  forEach_events _ (fun x w => Event.write conn (text x) (decide (conn ∉ w.broken)))
    (fun _ _ => rfl) (fun _ _ _ => rfl) xs w

theorem forEach_fprint_names (conn : Conn) (xs : List Conn) (w : World) :
    forEach xs (fun c => do
        let _ ← fprint conn ((((← getClients).get c).getD "") ++ "\n")) w =
      Outcome.done () { w with
        trace := (w.trace ++
          xs.map (fun c => Event.write conn (nameOf w.clients c ++ "\n")
            (decide (conn ∉ w.broken)))) } :=
  forEach_events _
    (fun c w => Event.write conn (nameOf w.clients c ++ "\n") (decide (conn ∉ w.broken)))
    (fun _ _ => rfl) (fun _ _ _ => rfl) xs w

theorem handleCommand_rooms (conn : Conn) (cur : String) (w : World) (h : w.held = false) :
    handleCommand conn "/rooms" cur w = Outcome.done cur
      { w with
        trace := (w.trace ++ [Event.lock] ++
          w.rooms.keys.map (fun r => Event.write conn (r ++ "\n") (decide (conn ∉ w.broken))) ++
          [Event.unlock]) } := by
  have h1 : hasPrefix "/rooms" "/name " = false := by decide
  have h2 : hasPrefix "/rooms" "/join " = false := by decide
  simp [handleCommand, h1, h2, lock_free w h, getRooms_run, forEach_fprint, unlock_run, h]

theorem handleCommand_listall (conn : Conn) (cur : String) (w : World) (h : w.held = false) :
    handleCommand conn "/listall" cur w = Outcome.done cur
      { w with
        trace := (w.trace ++ [Event.lock] ++
          w.clients.keys.map (fun c => Event.write conn (nameOf w.clients c ++ "\n")
            (decide (conn ∉ w.broken))) ++
          [Event.unlock]) } := by
  have h1 : hasPrefix "/listall" "/name " = false := by decide
  simp [handleCommand, h1, lock_free w h, getClients_run, forEach_fprint_names, unlock_run, h]

theorem handleCommand_list (conn : Conn) (cur : String) (hcur : cur ≠ "") (w : World)
    (h : w.held = false) :
    handleCommand conn "/list" cur w = Outcome.done cur
      { w with
        trace := (w.trace ++ [Event.lock] ++
          (members w.rooms cur).keys.map (fun c => Event.write conn (nameOf w.clients c ++ "\n")
            (decide (conn ∉ w.broken))) ++
          [Event.unlock]) } := by
  have h1 : hasPrefix "/list" "/name " = false := by decide
  have h2 : hasPrefix "/list" "/join " = false := by decide
  simp [handleCommand, h1, h2, hcur, lock_free w h, getRooms_run, forEach_fprint_names, unlock_run, h,
    members]

/-! ## Rooms are registered exactly while they have members -/

theorem roomsOK_run (call : Call) (w : World) (h : RoomsOK w.rooms) :
    RoomsOK (call.run w).rooms := by
  cases call with
  | joinRoom c r => exact keeps_joinRoom c r w h
  | leaveRoom c r => exact keeps_leaveRoom c r w h
  | handleCommand c cmd cur => exact keeps_handleCommand c cmd cur w h
  | handleLine c msg cur => exact keeps_handleLine c msg cur w h
  | register c name => exact keeps_register c name w h
  | cleanup c name cur => exact keeps_cleanup c name cur w h
  | handleConnection c name lines => exact keeps_handleConnection c name lines w h
  | broadcastMessage msg => exact keeps_broadcastMessage msg w h
  | peerGone c => exact h

theorem roomsOK_runCalls (calls : List Call) :
    ∀ w, RoomsOK w.rooms → RoomsOK (runCalls calls w).rooms := by
  induction calls with
  | nil => exact fun _ h => h
  | cons c cs ih => exact fun w h => ih (c.run w) (roomsOK_run c w h)

theorem registered_iff_member (rooms : Rooms) (h : RoomsOK rooms) (r : String) :
    r ∈ rooms.keys ↔ ∃ c, c ∈ (members rooms r).keys := by
  constructor
  · intro hr
    obtain ⟨ms, hms⟩ := (GoMap.mem_keys_iff rooms r).1 hr
    have hne := h r ms hms
    cases hk : ms.keys with
    | nil => exact absurd hk hne
    | cons c cs => exact ⟨c, by simp [members, hms, hk]⟩
  · rintro ⟨c, hc⟩
    cases hg : rooms.get r with
    | none => simp [members, hg] at hc
    | some ms => exact (GoMap.mem_keys_iff rooms r).2 ⟨ms, hg⟩

theorem leave_last_unregisters (rooms : Rooms) (c : Conn) (r : String)
    (h : (members rooms r).keys = [c]) : r ∉ (roomsAfterLeave rooms c r).keys := by
  cases hg : rooms.get r with
  | none => simp [members, hg] at h
  | some ms =>
    have hk : ms.keys = [c] := by simpa [members, hg] using h
    have hl : (ms.del c).len = 0 := by
      rw [GoMap.len_eq_zero_iff, GoMap.keys_del, hk]
      simp
    simp [roomsAfterLeave, hg, hl, GoMap.mem_keys_del]

/-- C2.  In every state reached from the empty registries by any sequence of calls
of the server functions (among them `joinRoom`, `leaveRoom`, the rename command,
the session cleanup and the broadcast with failing writes) and of peers going
away: every registered room has a non-empty member set; a room name is a key of
`rooms` exactly when some connection is a member of it; `/rooms` prints exactly
the keys of `rooms`; and, when the mutex is free, a `leaveRoom` of the only member
of a room removes the room name and a following `joinRoom` of that name by any
connection registers it again. -/
theorem rooms_registered_iff_nonempty (calls : List Call) :
    (∀ r ms, (runCalls calls World.init).rooms.get r = some ms → ms.keys ≠ []) ∧
    (∀ r, r ∈ (runCalls calls World.init).rooms.keys ↔
      ∃ c, c ∈ (members (runCalls calls World.init).rooms r).keys) ∧
    (∀ d cur, (runCalls calls World.init).held = false →
      ((handleCommand d "/rooms" cur (runCalls calls World.init)).world.trace =
        (runCalls calls World.init).trace ++ [Event.lock] ++
          (runCalls calls World.init).rooms.keys.map
            (fun r => Event.write d (r ++ "\n")
              (decide (d ∉ (runCalls calls World.init).broken))) ++
          [Event.unlock])) ∧
    (∀ c r, (runCalls calls World.init).held = false →
      (members (runCalls calls World.init).rooms r).keys = [c] →
      r ∉ (leaveRoom c r (runCalls calls World.init)).world.rooms.keys ∧
      ∀ d, r ∈ (joinRoom d r
        (leaveRoom c r (runCalls calls World.init)).world).world.rooms.keys) := by
  have hok : RoomsOK (runCalls calls World.init).rooms :=
    roomsOK_runCalls calls World.init roomsOK_empty
  generalize runCalls calls World.init = w at hok
  refine ⟨hok, registered_iff_member w.rooms hok, ?_, ?_⟩
  · intro d cur hfree
    rw [handleCommand_rooms d cur w hfree]
    rfl
  · intro c r hfree hc
    rw [leaveRoom_free c r w hfree]
    refine ⟨leave_last_unregisters w.rooms c r hc, fun d => ?_⟩
    have hj := joinRoom_free d r
      { w with rooms := roomsAfterLeave w.rooms c r, trace := w.trace ++ [Event.lock, Event.unlock] }
      hfree
    simp only [Outcome.world, hj]
    exact (GoMap.mem_keys_set _ _ _ _).2 (Or.inl rfl)

/-- C2 on a run: after one connection registers and joins `lobby`, the mutex is
free, that connection is the only member, leaving unregisters `lobby` and a join
by another connection registers it again. -/
theorem rooms_registered_iff_nonempty_witness :
    "lobby" ∉ (leaveRoom 1 "lobby"
        (runCalls [Call.register 1 "a", Call.joinRoom 1 "lobby"] World.init)).world.rooms.keys ∧
    "lobby" ∈ (joinRoom 2 "lobby" (leaveRoom 1 "lobby"
        (runCalls [Call.register 1 "a", Call.joinRoom 1 "lobby"]
          World.init)).world).world.rooms.keys :=
  ⟨((rooms_registered_iff_nonempty [Call.register 1 "a", Call.joinRoom 1 "lobby"]).2.2.2
      1 "lobby" (by decide) (by decide)).1,
   ((rooms_registered_iff_nonempty [Call.register 1 "a", Call.joinRoom 1 "lobby"]).2.2.2
      1 "lobby" (by decide) (by decide)).2 2⟩

/-! ## Joining twice, leaving, renaming -/

theorem roomsAfterJoin_idem (clients : Clients) (rooms : Rooms) (c : Conn) (r : String) :
    roomsAfterJoin clients (roomsAfterJoin clients rooms c r) c r =
      roomsAfterJoin clients rooms c r := by
  simp [roomsAfterJoin, members]

theorem members_afterJoin (clients : Clients) (rooms : Rooms) (c : Conn) (r : String) :
    members (roomsAfterJoin clients rooms c r) r =
      (members rooms r).set c (nameOf clients c) := by
  simp [roomsAfterJoin, members]

theorem joinRoom_world (c : Conn) (r : String) (w : World) (h : w.held = false) :
    (joinRoom c r w).returned = true ∧ (joinRoom c r w).world.held = false ∧
    (joinRoom c r w).world.clients = w.clients ∧
    (joinRoom c r w).world.rooms = roomsAfterJoin w.clients w.rooms c r := by
  rw [joinRoom_free c r w h]
  exact ⟨rfl, h, rfl, rfl⟩

theorem handleCommand_list_trace (d : Conn) (r : String) (hr : r ≠ "") (w : World)
    (h : w.held = false) :
    (handleCommand d "/list" r w).world.trace =
      w.trace ++ [Event.lock] ++
        (members w.rooms r).keys.map
          (fun k => Event.write d (nameOf w.clients k ++ "\n") (decide (d ∉ w.broken))) ++
        [Event.unlock] := by
  rw [handleCommand_list d r hr w h]
  rfl

/-- C6.  `joinRoom` is idempotent: started with the mutex free, a second
`joinRoom(c, r)` right after the first returns and leaves `clients` and `rooms` as
the first left them; `c` is then exactly once among the members of `rooms[r]`, and
(for a room name that `/list` can list, that is a non-empty one) `/list` writes
exactly one line per member of `rooms[r]`, hence one for `c`. -/
theorem joinRoom_idempotent (w : World) (hfree : w.held = false) (c : Conn) (r : String) :
    (joinRoom c r w).returned = true ∧
    (joinRoom c r (joinRoom c r w).world).returned = true ∧
    (joinRoom c r (joinRoom c r w).world).world.clients = (joinRoom c r w).world.clients ∧
    (joinRoom c r (joinRoom c r w).world).world.rooms = (joinRoom c r w).world.rooms ∧
    (members (joinRoom c r (joinRoom c r w).world).world.rooms r).keys.count c = 1 ∧
    (r ≠ "" → ∀ d,
      (handleCommand d "/list" r (joinRoom c r (joinRoom c r w).world).world).world.trace =
        (joinRoom c r (joinRoom c r w).world).world.trace ++ [Event.lock] ++
          (members (joinRoom c r (joinRoom c r w).world).world.rooms r).keys.map
            (fun k => Event.write d
              (nameOf (joinRoom c r (joinRoom c r w).world).world.clients k ++ "\n")
              (decide (d ∉ (joinRoom c r (joinRoom c r w).world).world.broken))) ++
          [Event.unlock]) := by
  obtain ⟨a1, a2, a3, a4⟩ := joinRoom_world c r w hfree
  obtain ⟨b1, b2, b3, b4⟩ := joinRoom_world c r (joinRoom c r w).world a2
  have hrooms : (joinRoom c r (joinRoom c r w).world).world.rooms =
      roomsAfterJoin w.clients w.rooms c r := by
    rw [b4, a3, a4, roomsAfterJoin_idem]
  refine ⟨a1, b1, b3, by rw [hrooms, a4], ?_, fun hr d => handleCommand_list_trace d r hr _ b2⟩
  rw [hrooms, members_afterJoin]
  exact List.count_eq_one_of_mem (GoMap.nodup_keys _) ((GoMap.mem_keys_set _ _ _ _).2 (Or.inl rfl))

/-- C6 on a run: connection 1, registered as `a`, joins `lobby` twice. -/
theorem joinRoom_idempotent_witness :
    (members (joinRoom 1 "lobby" (joinRoom 1 "lobby"
      (register 1 "a" World.init).world).world).world.rooms "lobby").keys.count 1 = 1 :=
  (joinRoom_idempotent (register 1 "a" World.init).world (by decide) 1 "lobby").2.2.2.2.1

theorem keys_eq_singleton {α : Type} [DecidableEq α] (l : List α) (c : α) (hn : l.Nodup)
    (hc : c ∈ l) (hf : l.filter (fun x => decide (x ≠ c)) = []) : l = [c] := by
  have hall : ∀ x ∈ l, x = c := by
    intro x hx
    by_contra hne
    have : x ∈ l.filter (fun x => decide (x ≠ c)) := by
      simp [List.mem_filter, hx, hne]
    rw [hf] at this
    simp at this
  cases l with
  | nil => simp at hc
  | cons a t =>
    have ha : a = c := hall a (List.mem_cons_self a t)
    subst ha
    cases t with
    | nil => rfl
    | cons b t2 =>
      have hb : b = a := hall b (by simp)
      subst hb
      simp at hn

/-- C7.  Started with the mutex free, `leaveRoom(c, r)` returns and
* for a connection `c` that is not a member of `rooms[r]`, in registries where no
  registered room is empty, changes neither `clients` nor `rooms` (the only effect
  is the lock and unlock steps);
* for a member `c`, leaves `clients` unchanged, makes the member set of `r` the old
  one without `c` (all other members kept), unregisters `r` exactly when `c` was
  its only member, and leaves every other room as it was. -/
theorem leaveRoom_frame (w : World) (hfree : w.held = false) (c : Conn) (r : String) :
    (c ∉ (members w.rooms r).keys → (∀ x ms, w.rooms.get x = some ms → ms.keys ≠ []) →
      leaveRoom c r w =
        Outcome.done () { w with trace := w.trace ++ [Event.lock, Event.unlock] }) ∧
    (c ∈ (members w.rooms r).keys →
      (leaveRoom c r w).returned = true ∧
      (leaveRoom c r w).world.clients = w.clients ∧
      members (leaveRoom c r w).world.rooms r = (members w.rooms r).del c ∧
      (∀ x, x ∈ (members (leaveRoom c r w).world.rooms r).keys ↔
        x ≠ c ∧ x ∈ (members w.rooms r).keys) ∧
      ((leaveRoom c r w).world.rooms.get r = none ↔ (members w.rooms r).keys = [c]) ∧
      (∀ x, x ≠ r → (leaveRoom c r w).world.rooms.get x = w.rooms.get x)) := by
  rw [leaveRoom_free c r w hfree]
  simp only [Outcome.world, Outcome.returned, true_and]
  constructor
  · intro hc hok
    have : roomsAfterLeave w.rooms c r = w.rooms := by
      unfold roomsAfterLeave
      cases hg : w.rooms.get r with
      | none => rfl
      | some ms =>
        have hc2 : c ∉ ms.keys := by simpa [members, hg] using hc
        have hd : ms.del c = ms := GoMap.del_of_not_mem ms c hc2
        have hl : ¬ ms.len = 0 := by
          rw [GoMap.len_eq_zero_iff]
          exact hok r ms hg
        simp only [hd, hl, if_false]
        exact GoMap.set_of_get _ _ _ hg
    rw [this]
  · intro hc
    cases hg : w.rooms.get r with
    | none => simp [members, hg] at hc
    | some ms =>
      have hm : members w.rooms r = ms := by simp [members, hg]
      rw [hm] at hc ⊢
      by_cases hl : (ms.del c).len = 0
      · have hra : roomsAfterLeave w.rooms c r = w.rooms.del r := by
          simp [roomsAfterLeave, hg, hl]
        have hempty : ms.del c = GoMap.empty :=
          GoMap.ext (List.length_eq_zero.mp hl)
        have hk : ms.keys = [c] := by
          apply keys_eq_singleton _ _ (GoMap.nodup_keys ms) hc
          rw [← GoMap.keys_del, hempty]
          rfl
        rw [hra]
        refine ⟨?_, ?_, ?_, ?_⟩
        · simp [members, hempty]
        · intro x
          simp [members, hk]
        · simp [hk]
        · intro x hx
          exact GoMap.get_del_ne _ _ _ hx
      · have hra : roomsAfterLeave w.rooms c r = w.rooms.set r (ms.del c) := by
          simp [roomsAfterLeave, hg, hl]
        have hk : ms.keys ≠ [c] := by
          intro hk
          apply hl
          rw [GoMap.len_eq_zero_iff, GoMap.keys_del, hk]
          simp
        rw [hra]
        refine ⟨?_, ?_, ?_, ?_⟩
        · simp [members]
        · intro x
          simp [members, GoMap.mem_keys_del]
        · simp [hk]
        · intro x hx
          exact GoMap.get_set_ne _ _ _ _ hx

/-- C7 on a run: connection 1 is the only member of `lobby`; a `leaveRoom` by the
non-member 2 changes nothing, one by 1 unregisters the room. -/
theorem leaveRoom_frame_witness :
    leaveRoom 2 "lobby" (runCalls [Call.register 1 "a", Call.joinRoom 1 "lobby"] World.init) =
      Outcome.done ()
        { runCalls [Call.register 1 "a", Call.joinRoom 1 "lobby"] World.init with
          trace := (runCalls [Call.register 1 "a", Call.joinRoom 1 "lobby"] World.init).trace ++
            [Event.lock, Event.unlock] } ∧
    (leaveRoom 1 "lobby"
      (runCalls [Call.register 1 "a", Call.joinRoom 1 "lobby"] World.init)).world.rooms.get
        "lobby" = none :=
  ⟨(leaveRoom_frame (runCalls [Call.register 1 "a", Call.joinRoom 1 "lobby"] World.init)
      (by decide) 2 "lobby").1 (by decide)
      (roomsOK_runCalls [Call.register 1 "a", Call.joinRoom 1 "lobby"] World.init roomsOK_empty),
   ((leaveRoom_frame (runCalls [Call.register 1 "a", Call.joinRoom 1 "lobby"] World.init)
      (by decide) 1 "lobby").2 (by decide)).2.2.2.2.1.2 (by decide)⟩

theorem handleCommand_listall_trace (d : Conn) (cur : String) (w : World) (h : w.held = false) :
    (handleCommand d "/listall" cur w).world.trace =
      w.trace ++ [Event.lock] ++
        w.clients.keys.map
          (fun k => Event.write d (nameOf w.clients k ++ "\n") (decide (d ∉ w.broken))) ++
        [Event.unlock] := by
  rw [handleCommand_listall d cur w h]
  rfl

theorem nameOf_set (clients : Clients) (c k : Conn) (n : String) :
    nameOf (clients.set c n) k = if k = c then n else nameOf clients k := by
  by_cases h : k = c
  · subst h
    simp [nameOf]
  · simp [nameOf, h, GoMap.get_set_ne _ _ _ _ h]

/-- C8.  Started with the mutex free, the command `/name n` from connection `c`
returns with `c`'s `currentRoom` as it was, leaves the `rooms` map (room names and
every member set) unchanged, sets `clients[c]` to `n` and leaves the name of every
other connection unchanged; afterwards `c` is exactly once among the keys of
`clients`, and a `/listall` by any connection `d` writes one line per key of
`clients`, the line for `c` being `n` and the line for any other connection its
name from before the rename. -/
theorem name_changes_only_clients (w : World) (hfree : w.held = false) (c : Conn)
    (n cur : String) :
    (handleCommand c ("/name " ++ n) cur w).value = some cur ∧
    (handleCommand c ("/name " ++ n) cur w).world.rooms = w.rooms ∧
    (handleCommand c ("/name " ++ n) cur w).world.clients.get c = some n ∧
    (∀ d, d ≠ c →
      (handleCommand c ("/name " ++ n) cur w).world.clients.get d = w.clients.get d) ∧
    (handleCommand c ("/name " ++ n) cur w).world.clients.keys.count c = 1 ∧
    (∀ d cur2,
      (handleCommand d "/listall" cur2 (handleCommand c ("/name " ++ n) cur w).world).world.trace =
        (handleCommand c ("/name " ++ n) cur w).world.trace ++ [Event.lock] ++
          (handleCommand c ("/name " ++ n) cur w).world.clients.keys.map
            (fun k => Event.write d ((if k = c then n else nameOf w.clients k) ++ "\n")
              (decide (d ∉ (handleCommand c ("/name " ++ n) cur w).world.broken))) ++
          [Event.unlock]) := by
  have hrun := handleCommand_name c n cur w hfree
  have hheld : (handleCommand c ("/name " ++ n) cur w).world.held = false := by
    rw [hrun]; exact hfree
  have hcl : (handleCommand c ("/name " ++ n) cur w).world.clients = w.clients.set c n := by
    rw [hrun]; rfl
  refine ⟨by rw [hrun]; rfl, by rw [hrun]; rfl, by rw [hcl]; simp, ?_, ?_, ?_⟩
  · intro d hd
    rw [hcl]
    exact GoMap.get_set_ne _ _ _ _ hd
  · rw [hcl]
    exact List.count_eq_one_of_mem (GoMap.nodup_keys _)
      ((GoMap.mem_keys_set _ _ _ _).2 (Or.inl rfl))
  · intro d cur2
    rw [handleCommand_listall_trace d cur2 _ hheld, hcl]
    simp only [nameOf_set]

/-- C8 on a run: connection 1, registered as `a`, renames itself to `Alice`. -/
theorem name_changes_only_clients_witness :
    (handleCommand 1 ("/name " ++ "Alice") "" (register 1 "a" World.init).world).world.clients.get 1 =
      some "Alice" :=
  (name_changes_only_clients (register 1 "a" World.init).world (by decide) 1 "Alice" "").2.2.1

/-! ## Broadcast -/

theorem broadcastTo_ok (msg : Message) (client : Conn) (w : World) (h : client ∉ w.broken) :
    broadcastTo msg client w =
      Outcome.done () { w with trace := w.trace ++ [Event.write client (msg.text ++ "\n") true] } := by
  simp [broadcastTo, fprint_run, h]

theorem broadcastTo_fail (msg : Message) (client : Conn) (w : World) (h : client ∈ w.broken)
    (hh : w.held = true) :
    broadcastTo msg client w =
      Outcome.blocked
        { w with
          clients := w.clients.del client
          broken := client :: w.broken
          trace := w.trace ++ [Event.write client (msg.text ++ "\n") false,
            Event.print "Error broadcasting message:", Event.close client] } := by
  have hl := leaveRoom_held client msg.room
    { w with
      clients := w.clients.del client
      broken := client :: w.broken
      trace := w.trace ++ [Event.write client (msg.text ++ "\n") false,
        Event.print "Error broadcasting message:", Event.close client] } hh
  simp [broadcastTo, fprint_run, h, emit_run, close_run, getClients_run, setClients_run, hl]

theorem forEach_broadcastTo_ok (msg : Message) (xs : List Conn) :
    ∀ w, (∀ c ∈ xs, c ∉ w.broken) → forEach xs (broadcastTo msg) w =
      Outcome.done ()
        { w with
          trace := (w.trace ++ xs.map (fun c => Event.write c (msg.text ++ "\n") true)) } := by
  induction xs with
  | nil => intro w _; simp [forEach]
  | cons x xs ih =>
    intro w h
    have hx : x ∉ w.broken := h x (List.mem_cons_self x xs)
    have hxs : ∀ c ∈ xs, c ∉ w.broken := fun c hc => h c (List.mem_cons_of_mem x hc)
    have hrest := ih { w with trace := w.trace ++ [Event.write x (msg.text ++ "\n") true] } hxs
    simp [forEach, broadcastTo_ok msg x w hx, hrest]

theorem broadcastMessage_ok (msg : Message) (w : World) (hfree : w.held = false)
    (hok : ∀ c ∈ (members w.rooms msg.room).keys, c ∉ w.broken) :
    broadcastMessage msg w =
      Outcome.done ()
        { w with
          trace := (w.trace ++ [Event.lock] ++
            (members w.rooms msg.room).keys.map
              (fun c => Event.write c (msg.text ++ "\n") true) ++
            [Event.unlock]) } := by
  cases hg : w.rooms.get msg.room with
  | none =>
    simp [broadcastMessage, lock_free w hfree, getRooms_run, hg, unlock_run, members, hfree]
  | some ms =>
    have hok2 : ∀ c ∈ ms.keys, c ∉ w.broken := by simpa [members, hg] using hok
    have hloop := forEach_broadcastTo_ok msg ms.keys
      { w with held := true, trace := w.trace ++ [Event.lock] } hok2
    simp [broadcastMessage, lock_free w hfree, getRooms_run, hg, unlock_run, members, hfree, hloop]

theorem handleLine_chat (s : Conn) (r t : String) (hr : r ≠ "") (ht : hasPrefix t "/" = false)
    (w : World) (hfree : w.held = false) :
    handleLine s t r w = Outcome.done r
      { w with
        trace := w.trace ++ [Event.lock,
          Event.send ⟨r, "[" ++ nameOf w.clients s ++ "]: " ++ t⟩, Event.unlock] } := by
  simp [handleLine, ht, hr, lock_free w hfree, getClients_run, sendMessage_run, unlock_run, nameOf, hfree]

theorem broadcastMessages_single (msg : Message) (w : World) :
    broadcastMessages [msg] w = broadcastMessage msg w := by
  simp only [broadcastMessages, forEach, bind_run]
  cases broadcastMessage msg w <;> rfl

/-- C4.  For a connection `s` whose `currentRoom` is a non-empty `r` and a line `t`
not starting with `/`, `handleConnection`'s loop body (started with the mutex free)
sends exactly the message with room `r` and text `[clients[s]]: t` on the channel
and changes nothing else.  When `broadcastMessages` then processes that message in
any world `v` (mutex free) in which no write to a member of `rooms[r]` fails, it
returns, changes no registry, and its writes are exactly one write of that text
(as a line) to each key of `rooms[r]` as it is in `v`, the keys being pairwise
distinct: every member, `s` included if it is one, is written once and no other
connection is written to. -/
theorem chat_line_delivery (w : World) (hfree : w.held = false) (s : Conn) (r t : String)
    (hr : r ≠ "") (ht : hasPrefix t "/" = false) :
    handleLine s t r w = Outcome.done r
      { w with
        trace := w.trace ++ [Event.lock,
          Event.send ⟨r, "[" ++ nameOf w.clients s ++ "]: " ++ t⟩, Event.unlock] } ∧
    ∀ v : World, v.held = false → (∀ c ∈ (members v.rooms r).keys, c ∉ v.broken) →
      broadcastMessages [⟨r, "[" ++ nameOf w.clients s ++ "]: " ++ t⟩] v =
        Outcome.done ()
          { v with
            trace := (v.trace ++ [Event.lock] ++
              (members v.rooms r).keys.map
                (fun c => Event.write c ("[" ++ nameOf w.clients s ++ "]: " ++ t ++ "\n") true) ++
              [Event.unlock]) } ∧
      (members v.rooms r).keys.Nodup := by
  refine ⟨handleLine_chat s r t hr ht w hfree, fun v hv hok => ⟨?_, GoMap.nodup_keys _⟩⟩
  rw [broadcastMessages_single]
  exact broadcastMessage_ok ⟨r, "[" ++ nameOf w.clients s ++ "]: " ++ t⟩ v hv hok

/-- C4 on a run: with 1 and 2 in room `r`, the line `hello` from 1 is delivered to
both. -/
theorem chat_line_delivery_witness :
    broadcastMessages [⟨"r", "[" ++ nameOf twoInRoom.clients 1 ++ "]: " ++ "hello"⟩] twoInRoom =
      Outcome.done ()
        { twoInRoom with
          trace := (twoInRoom.trace ++ [Event.lock] ++
            (members twoInRoom.rooms "r").keys.map
              (fun c => Event.write c
                ("[" ++ nameOf twoInRoom.clients 1 ++ "]: " ++ "hello" ++ "\n") true) ++
            [Event.unlock]) } :=
  ((chat_line_delivery twoInRoom (by decide) 1 "r" "hello" (by decide) (by decide)).2
    twoInRoom (by decide) (by decide)).1

/-! ## Where the session and the registries part ways -/

/-- Whatever the registries, a `/join B` issued by a session whose current room is
`A` leaves the connection a member of `A`: the join branch adds to `B` only. -/
theorem join_keeps_previous_room (w : World) (hfree : w.held = false) (c : Conn)
    (A B : String) (hc : c ∈ (members w.rooms A).keys) :
    (handleCommand c ("/join " ++ B) A w).value = some B ∧
    c ∈ (members (handleCommand c ("/join " ++ B) A w).world.rooms A).keys ∧
    c ∈ (members (handleCommand c ("/join " ++ B) A w).world.rooms B).keys := by
  rw [handleCommand_join c B A w hfree]
  refine ⟨rfl, ?_, ?_⟩
  · by_cases hAB : A = B
    · subst hAB
      simp only [Outcome.world, members_afterJoin]
      exact (GoMap.mem_keys_set _ _ _ _).2 (Or.inl rfl)
    · simp only [Outcome.world, members, roomsAfterJoin, GoMap.get_set_ne _ _ _ _ hAB]
      exact hc
  · simp only [Outcome.world, members_afterJoin]
    exact (GoMap.mem_keys_set _ _ _ _).2 (Or.inl rfl)

/-- Whatever the registries, `/join ` with an empty room name makes the connection a
member of the room named by the empty string and sets `currentRoom` to the empty
string. -/
theorem join_empty_name (w : World) (hfree : w.held = false) (c : Conn) (cur : String) :
    (handleCommand c ("/join " ++ "") cur w).value = some "" ∧
    c ∈ (members (handleCommand c ("/join " ++ "") cur w).world.rooms "").keys := by
  rw [handleCommand_join c "" cur w hfree]
  refine ⟨rfl, ?_⟩
  simp only [Outcome.world, members_afterJoin]
  exact (GoMap.mem_keys_set _ _ _ _).2 (Or.inl rfl)

/-- C1 (the code fails it).  Connection 1 sends `/join A` and then `/join B`:
`currentRoom` ends as `B`, and the connection is a member of both `rooms["A"]` and
`rooms["B"]`, because the `/join` branch never leaves the previous room. -/
theorem join_second_room_keeps_first :
    (serve 1 "a" ["/join A", "/join B"] World.init).value = some "B" ∧
    1 ∈ (members (serve 1 "a" ["/join A", "/join B"] World.init).world.rooms "A").keys ∧
    1 ∈ (members (serve 1 "a" ["/join A", "/join B"] World.init).world.rooms "B").keys := by
  decide

/-- C3 (the code fails it).  Connection 1 sends `/join A`, `/join B` and then its
stream ends: `handleConnection` returns after its cleanup, connection 1 is no
longer a key of `clients`, and it is still a member of `rooms["A"]`, which stays
registered. -/
theorem cleanup_leaves_stale_member :
    (handleConnection 1 "a" ["/join A", "/join B"] World.init).returned = true ∧
    1 ∉ (handleConnection 1 "a" ["/join A", "/join B"] World.init).world.clients.keys ∧
    1 ∈ (members (handleConnection 1 "a" ["/join A", "/join B"] World.init).world.rooms "A").keys ∧
    (handleConnection 1 "a" ["/join A", "/join B"] World.init).world.rooms.keys = ["A"] := by
  decide

/-- C5 (the code fails it).  Connections 1 and 2 are in room `r` and writes to 1
fail.  Processing a message for `r`, the broadcaster never returns: it blocks in
`leaveRoom` on the mutex it holds itself, with the mutex still held, connection 1
closed and removed from `clients` but still a member of `rooms["r"]`, and nothing
written to connection 2. -/
theorem broadcast_failure_blocks :
    (broadcastMessages [⟨"r", "hi"⟩] twoInRoomOneGone).returned = false ∧
    (broadcastMessages [⟨"r", "hi"⟩] twoInRoomOneGone).world.held = true ∧
    Event.close 1 ∈ (broadcastMessages [⟨"r", "hi"⟩] twoInRoomOneGone).world.trace ∧
    1 ∉ (broadcastMessages [⟨"r", "hi"⟩] twoInRoomOneGone).world.clients.keys ∧
    (members (broadcastMessages [⟨"r", "hi"⟩] twoInRoomOneGone).world.rooms "r").keys = [1, 2] ∧
    Event.write 2 "hi\n" true ∉ (broadcastMessages [⟨"r", "hi"⟩] twoInRoomOneGone).world.trace := by
  decide

/-- C10 (the code fails it).  Connection 1 sends `/join ` with an empty room name:
`currentRoom` is the empty string, which the session reads as being in no room
(the following `/leave` is answered `You are not in any room.`), while the
connection is a member of the registered room named by the empty string. -/
theorem join_empty_name_desynchronises :
    (serve 1 "a" ["/join ", "/leave"] World.init).value = some "" ∧
    1 ∈ (members (serve 1 "a" ["/join ", "/leave"] World.init).world.rooms "").keys ∧
    (serve 1 "a" ["/join ", "/leave"] World.init).world.trace.getLast? =
      some (Event.write 1 "You are not in any room.\n" true) := by
  decide

/-! ## Broadcast: a failing write -/

theorem forEach_broadcastTo_blocks (msg : Message) (xs : List Conn) :
    ∀ w, w.held = true → (∃ c ∈ xs, c ∈ w.broken) →
      (forEach xs (broadcastTo msg) w).returned = false ∧
      (forEach xs (broadcastTo msg) w).world.rooms = w.rooms := by
  induction xs with
  | nil => intro w _ h; simp at h
  | cons x xs ih =>
    intro w hh hex
    by_cases hx : x ∈ w.broken
    · simp only [forEach, bind_run, broadcastTo_fail msg x w hx hh]
      exact ⟨rfl, rfl⟩
    · have hrest : ∃ c ∈ xs, c ∈ w.broken := by
        obtain ⟨c, hc, hb⟩ := hex
        rcases List.mem_cons.1 hc with rfl | hc2
        · exact absurd hb hx
        · exact ⟨c, hc2, hb⟩
      have := ih { w with trace := w.trace ++ [Event.write x (msg.text ++ "\n") true] } hh hrest
      simp only [forEach, bind_run, broadcastTo_ok msg x w hx]
      exact this

/-- Whenever the write to some member of the addressed room fails, the broadcaster
does not return from that message: it blocks on its own mutex, and the `rooms` map
is as it was. -/
theorem broadcastMessage_blocks (msg : Message) (w : World) (hfree : w.held = false)
    (hfail : ∃ c ∈ (members w.rooms msg.room).keys, c ∈ w.broken) :
    (broadcastMessage msg w).returned = false ∧
    (broadcastMessage msg w).world.rooms = w.rooms := by
  cases hg : w.rooms.get msg.room with
  | none => simp [members, hg] at hfail
  | some ms =>
    have hfail2 : ∃ c ∈ ms.keys, c ∈ w.broken := by simpa [members, hg] using hfail
    have hloop := forEach_broadcastTo_blocks msg ms.keys
      { w with held := true, trace := w.trace ++ [Event.lock] } rfl hfail2
    simp only [broadcastMessage, bind_run, lock_free w hfree, getRooms_run, hg]
    cases hf : forEach ms.keys (broadcastTo msg)
        { w with held := true, trace := w.trace ++ [Event.lock] } with
    | done a w1 =>
      rw [hf] at hloop
      simp [Outcome.returned] at hloop
    | blocked w1 =>
      rw [hf] at hloop
      exact ⟨rfl, hloop.2⟩

/-! ## Lock discipline -/

/-- Go `joinRoom` keeps the discipline: it releases the mutex (line 169) before its
write (line 170). -/
theorem joinRoom_discipline (clients : Clients) (rooms : Rooms) (broken : List Conn)
    (c : Conn) (r : String) :
    LockDiscipline (joinRoom c r ⟨clients, rooms, false, broken, []⟩) := by
  rw [joinRoom_free c r _ rfl]
  exact ⟨rfl, rfl, rfl⟩

/-- Go `leaveRoom`, called with the mutex free, keeps the discipline. -/
theorem leaveRoom_discipline (clients : Clients) (rooms : Rooms) (broken : List Conn)
    (c : Conn) (r : String) :
    LockDiscipline (leaveRoom c r ⟨clients, rooms, false, broken, []⟩) := by
  rw [leaveRoom_free c r _ rfl]
  exact ⟨rfl, rfl, rfl⟩

/-- Go `handleCommand` keeps the discipline for every command other than the three
listings: `/name` releases the mutex (line 120) before its write (line 121), and
the other branches write without the mutex. -/
theorem handleCommand_discipline (clients : Clients) (rooms : Rooms) (broken : List Conn)
    (c : Conn) (cmd cur : String)
    (h1 : cmd ≠ "/listall") (h2 : cmd ≠ "/rooms") (h3 : cmd ≠ "/list") :
    LockDiscipline (handleCommand c cmd cur ⟨clients, rooms, false, broken, []⟩) := by
  unfold handleCommand
  split_ifs
  · simp [LockDiscipline, lock_run, getClients_run, setClients_run, unlock_run, fprint_run,
      Outcome.returned, Outcome.world, ioUnderLock]
  · simp [LockDiscipline, joinRoom_free, Outcome.returned, Outcome.world, ioUnderLock]
  · simp [LockDiscipline, leaveRoom_free, fprint_run, Outcome.returned, Outcome.world,
      ioUnderLock]
  · simp [LockDiscipline, fprint_run, Outcome.returned, Outcome.world, ioUnderLock]
  · simp [LockDiscipline, close_run, Outcome.returned, Outcome.world, ioUnderLock]
  · simp [LockDiscipline, fprint_run, Outcome.returned, Outcome.world, ioUnderLock]

theorem ioUnderLock_locked_writes {α : Type} (xs : List α) (hx : xs ≠ [])
    (ev : α → Conn × String × Bool) (tail : List Event) :
    ioUnderLock false ([] ++ [Event.lock] ++
      xs.map (fun x => Event.write (ev x).1 (ev x).2.1 (ev x).2.2) ++ tail) = true := by
  cases xs with
  | nil => exact absurd rfl hx
  | cons x xs => simp [ioUnderLock]

/-- Whatever the registries, started with the mutex free: the chat branch of
`handleConnection` has the mutex at its channel send, and `/listall`, `/rooms`,
`/list` and `broadcastMessages` have it at each of their socket writes (whenever
they have something to write). -/
theorem mutex_held_at_io (clients : Clients) (rooms : Rooms) (broken : List Conn) :
    (∀ s r t, r ≠ "" → hasPrefix t "/" = false →
      (handleLine s t r ⟨clients, rooms, false, broken, []⟩).world.trace =
        [Event.lock, Event.send ⟨r, "[" ++ nameOf clients s ++ "]: " ++ t⟩, Event.unlock] ∧
      ioUnderLock false (handleLine s t r ⟨clients, rooms, false, broken, []⟩).world.trace =
        true) ∧
    (∀ d cur, clients.keys ≠ [] → ioUnderLock false
      (handleCommand d "/listall" cur ⟨clients, rooms, false, broken, []⟩).world.trace = true) ∧
    (∀ d cur, rooms.keys ≠ [] → ioUnderLock false
      (handleCommand d "/rooms" cur ⟨clients, rooms, false, broken, []⟩).world.trace = true) ∧
    (∀ d cur, cur ≠ "" → (members rooms cur).keys ≠ [] → ioUnderLock false
      (handleCommand d "/list" cur ⟨clients, rooms, false, broken, []⟩).world.trace = true) ∧
    (∀ m, (members rooms m.room).keys ≠ [] →
      (∀ c ∈ (members rooms m.room).keys, c ∉ broken) → ioUnderLock false
      (broadcastMessages [m] ⟨clients, rooms, false, broken, []⟩).world.trace = true) := by
  refine ⟨?_, ?_, ?_, ?_, ?_⟩
  · intro s r t hr ht
    rw [handleLine_chat s r t hr ht _ rfl]
    exact ⟨rfl, rfl⟩
  · intro d cur hk
    rw [handleCommand_listall d cur _ rfl]
    exact ioUnderLock_locked_writes clients.keys hk
      (fun k => (d, nameOf clients k ++ "\n", decide (d ∉ broken))) [Event.unlock]
  · intro d cur hk
    rw [handleCommand_rooms d cur _ rfl]
    exact ioUnderLock_locked_writes rooms.keys hk
      (fun r => (d, r ++ "\n", decide (d ∉ broken))) [Event.unlock]
  · intro d cur hcur hk
    rw [handleCommand_list d cur hcur _ rfl]
    exact ioUnderLock_locked_writes (members rooms cur).keys hk
      (fun k => (d, nameOf clients k ++ "\n", decide (d ∉ broken))) [Event.unlock]
  · intro m hk hok
    rw [broadcastMessages_single, broadcastMessage_ok m _ rfl hok]
    exact ioUnderLock_locked_writes (members rooms m.room).keys hk
      (fun c => (c, m.text ++ "\n", true)) [Event.unlock]

/-- C9 (the code fails it).  Connection 1 (`a`) joins `lobby` and sends the chat line
`hello`.  The steps of `handleConnection` for that line are `mutex.Lock()`, the send
of the message `{lobby, [a]: hello}` on `messages`, `mutex.Unlock()`: the mutex is
held at the channel send, so the execution of `handleConnection` does not keep the
lock discipline.  When `broadcastMessages` then processes that message, its write
to connection 1 lies between its `mutex.Lock()` and its `mutex.Unlock()`. -/
theorem lock_held_across_send :
    (handleLine 1 "hello" "lobby" (serve 1 "a" ["/join lobby"] World.init).world).world.trace =
      (serve 1 "a" ["/join lobby"] World.init).world.trace ++
        [Event.lock, Event.send ⟨"lobby", "[a]: hello"⟩, Event.unlock] ∧
    ioUnderLock false
      (handleConnection 1 "a" ["/join lobby", "hello"] World.init).world.trace = true ∧
    ¬ LockDiscipline (handleConnection 1 "a" ["/join lobby", "hello"] World.init) ∧
    (broadcastMessages [⟨"lobby", "[a]: hello"⟩]
        (serve 1 "a" ["/join lobby", "hello"] World.init).world).world.trace =
      (serve 1 "a" ["/join lobby", "hello"] World.init).world.trace ++
        [Event.lock, Event.write 1 "[a]: hello\n" true, Event.unlock] := by
  decide

/-! ## The send under the mutex, seen by both tasks -/

/-- With the mutex held at the send, a session with two chat lines can stop the
server.  It sends the first line and releases the mutex; the broadcaster has
received that line and is at its `mutex.Lock()` (line 186); the session takes the
mutex again for the second line first.  Then neither task can take a step: the
session waits at its send (line 99) for a receiver, the broadcaster waits for the
mutex the session holds.  When instead the broadcaster takes the mutex in between,
both lines go through. -/
theorem send_under_mutex_can_deadlock :
    Handshake.run [Task.session, Task.session, Task.session, Task.session]
        (Handshake.start 2) =
      some ⟨some Task.session, SessionAt.send99, 1, BroadcasterAt.lock186⟩ ∧
    Handshake.step Task.session
      ⟨some Task.session, SessionAt.send99, 1, BroadcasterAt.lock186⟩ = none ∧
    Handshake.step Task.broadcaster
      ⟨some Task.session, SessionAt.send99, 1, BroadcasterAt.lock186⟩ = none ∧
    Handshake.run
        [Task.session, Task.session, Task.session, Task.broadcaster, Task.broadcaster,
          Task.session, Task.session, Task.session, Task.broadcaster, Task.broadcaster]
        (Handshake.start 2) =
      some ⟨none, SessionAt.finished, 0, BroadcasterAt.receive185⟩ := by
  decide

end ChatServer
